import Mathlib

/-!
Shallow embedding of the Polar Oxides program (src/main.rs) and verification
of its specification claims.

Modelling conventions:
* `f32` values are modelled as exact rationals (`ℚ`); the two places where the
  source performs lossy numeric conversions (`as i32`, `as u64`, `as f32`) are
  modelled explicitly by truncation/rounding functions below.
* The `primes` crate's `PrimeSet` is modelled as the sorted list of primes the
  set holds after `PrimeSet::new()` followed by `find(max_number)`: all primes
  up to the smallest prime that is at least `max_number` (at least `[2, 3]`,
  the initial contents).
* Transcendental `cos`/`sin` on `f32` are abstracted as function parameters
  `cosF sinF : ℚ → ℚ`; no claim depends on their values.
-/

/-! ## Numeric conversions (lossy casts of the source) -/

/-- Truncation of a rational toward zero, as Rust float-to-integer casts do. -/
def ratTruncToward0 (x : ℚ) : ℤ := if 0 ≤ x then ⌊x⌋ else -⌊-x⌋

/-- Rust `f32 as i32`: truncate toward zero, saturating at the `i32` bounds. -/
def f32toI32 (x : ℚ) : ℤ := max (-(2 ^ 31)) (min (ratTruncToward0 x) (2 ^ 31 - 1))

/-- Rust `f32 as u64`: truncate toward zero, saturating at `[0, 2^64)`. -/
def f32toU64 (x : ℚ) : ℕ := (min (ratTruncToward0 x) (2 ^ 64 - 1)).toNat

/-- The exponent of the unit in the last place when a `u64` is converted to
`f32`: the least `e` with `n / 2^e < 2^24` (so the 24-bit significand can hold
the quotient).  `e = 40` suffices for every `u64`. -/
def f32ulpExp (n : ℕ) : ℕ :=
  match (List.range 41).find? (fun e => decide (n / 2 ^ e < 2 ^ 24)) with
  | some e => e
  | none => 40

/-- Rust `u64 as f32`, as an exact natural number (the result is always an
integer): round to nearest at 24 significant bits, ties to even.  Exact for
`n ≤ 2^24`. -/
def f32ofNat (n : ℕ) : ℕ :=
  let e := f32ulpExp n
  let u := 2 ^ e
  let q := n / u
  let r := n % u
  if 2 * r < u then q * u
  else if u < 2 * r then (q + 1) * u
  else if q % 2 = 0 then q * u else (q + 1) * u

/-! ## Primality: trial division and the `primes` crate model -/

/-- Boolean trial-division primality check: `n` is prime iff `2 ≤ n` and no
`d` with `2 ≤ d < n` divides `n`.  This is the independent check the claims
compare the program's primality flag against. -/
def trialDivisionPrime (n : ℕ) : Bool :=
  decide (2 ≤ n) && (List.range n).all (fun d => decide (d < 2) || decide (n % d ≠ 0))

/-- Smallest prime that is at least `m` (Bertrand guarantees one below
`2m + 3`, which the search range covers). -/
def smallestPrimeGE (m : ℕ) : ℕ :=
  match (List.range (2 * m + 3)).find? (fun k => decide (m ≤ k) && trialDivisionPrime k) with
  | some p => p
  | none => 0

/-- Contents of the `primes` crate's `PrimeSet` after `PrimeSet::new()` (which
starts holding `[2, 3]`) followed by `find(m)` (which extends the sorted prime
list until its last element is at least `m`): all primes up to the smallest
prime that is at least `m`, and at least `[2, 3]`.  (The crate may overshoot by
a generation batch; every claim below only depends on the set holding all
primes up to a prime that is at least `m`, which this least model provides.) -/
def primeSetAfterFind (m : ℕ) : List ℕ :=
  (List.range (max 3 (smallestPrimeGE m) + 1)).filter trialDivisionPrime

/-- Helper for `PrimeSet.find_vec`: scan a prime list left to right carrying
the index, returning the first `(index, prime)` with `n ≤ prime`. -/
def findVecAux (n : ℕ) : ℕ → List ℕ → Option (ℕ × ℕ)
  | _, [] => none
  | i, p :: rest => if n ≤ p then some (i, p) else findVecAux n (i + 1) rest

/-- The `primes` crate's `PrimeSet::find_vec(n)`: index and value of the first
prime in the (ascending) set that is at least `n`, if any. -/
def PrimeSet.find_vec (ps : List ℕ) (n : ℕ) : Option (ℕ × ℕ) := findVecAux n 0 ps

/-! ## Particles and generation (`Particle::new`, `generate_particles`) -/

structure Particle where
  position : ℚ × ℚ
  is_prime : Bool
deriving DecidableEq

/-- Source `Particle::new(number, prime_tester)`: position `(number·cos number,
number·sin number)`; prime flag from `find_vec(number as u64)`, comparing the
found prime against `number as u64` and defaulting to `false`. -/
def Particle.new (number : ℚ) (cosF sinF : ℚ → ℚ) (prime_tester : List ℕ) : Particle :=
  { position := (number * cosF number, number * sinF number)
    is_prime :=
      match PrimeSet.find_vec prime_tester (f32toU64 number) with
      | some (_, p) => p == f32toU64 number
      | none => false }

def DEFAULT_MAX_NUMBER : ℕ := 50000

/-- The task body of `PolarOxides::generate_particles`: build the prime set up
to `max_number`, then map `1..max_number` (exclusive) to particles, converting
each index `number as f32`. -/
def generate_particles (max_number : ℕ) (cosF sinF : ℚ → ℚ) : List Particle :=
  let prime_tester := primeSetAfterFind max_number
  (List.range' 1 (max_number - 1)).map
    (fun number => Particle.new ((f32ofNat number : ℕ) : ℚ) cosF sinF prime_tester)

/-! ## Command-line argument handling -/

/-- Rust `str::trim` on the character list of a string (whitespace stripped
from both ends). -/
def rustTrim (s : String) : List Char :=
  ((s.toList.dropWhile Char.isWhitespace).reverse.dropWhile Char.isWhitespace).reverse

/-- Base-10 value of a digit list (most significant first). -/
def digitsToNat (l : List Char) : ℕ := l.foldl (fun a c => a * 10 + (c.toNat - 48)) 0

/-- Rust `str::parse::<u64>()`: an optional leading `+`, then one or more
decimal digits, the value fitting in 64 bits; anything else is a parse error. -/
def rustParseU64 (l : List Char) : Option ℕ :=
  let l2 := match l with
    | '+' :: rest => rest
    | _ => l
  if !l2.isEmpty && l2.all Char.isDigit && decide (digitsToNat l2 < 2 ^ 64) then
    some (digitsToNat l2)
  else
    none

/-- The generation bound computed at the top of `generate_particles`:
`args[1].trim().parse::<u64>()` when a second argument exists, with the
default on a missing argument or a parse error. -/
def maxNumberFromArgs (args : List String) : ℕ :=
  match args with
  | _ :: a :: _ =>
    match rustParseU64 (rustTrim a) with
    | some i => i
    | none => DEFAULT_MAX_NUMBER
  | _ => DEFAULT_MAX_NUMBER

/-! ## Colors (`PolarOxideColors`, `COLORS`) -/

structure Color where
  r : ℚ
  g : ℚ
  b : ℚ
  a : ℚ
deriving DecidableEq

def PolarOxideColors.BLACK : Color := { r := 0, g := 0, b := 0, a := 1 }

def PolarOxideColors.YELLOW : Color := { r := 91/100, g := 92/100, b := 18/100, a := 1 }

def PolarOxideColors.BLUE : Color := { r := 36/100, g := 82/100, b := 69/100, a := 1 }

def COLORS : List Color := [PolarOxideColors.BLACK, PolarOxideColors.YELLOW, PolarOxideColors.BLUE]

/-- Source `PolarOxideColors::index_of`: position of the color in `COLORS` (cast
`as u16`), or `0` ("Black if we can't find a color"). -/
def PolarOxideColors.index_of (c : Color) : ℕ :=
  match COLORS.findIdx? (fun color => decide (color = c)) with
  | some i => i % 65536
  | none => 0

/-! ## View state (`Configs`) and input transitions (`interact`) -/

structure Configs where
  zoom_level : ℤ
  draw_nonprimes : Bool
deriving DecidableEq

def MAX_ZOOM_LEVEL : ℤ := 1000

/-- One frame's key observations, as `interact` reads them. -/
structure InputState where
  w_pressed : Bool
  s_pressed : Bool
  f_released : Bool
  d_released : Bool
deriving DecidableEq

/-- Source `PolarOxides::interact` restricted to its effect on `self.configs`
(the fullscreen toggling itself goes to the window host). -/
def interactConfigs (input : InputState) (c : Configs) : Configs :=
  let c := if input.w_pressed then
      (if 0 < c.zoom_level then { c with zoom_level := c.zoom_level - 1 } else c)
    else c
  let c := if input.s_pressed then
      (if c.zoom_level ≤ MAX_ZOOM_LEVEL then { c with zoom_level := c.zoom_level + 1 } else c)
    else c
  let c := if input.f_released then { c with zoom_level := c.zoom_level + 1 } else c
  let c := if input.d_released then { c with draw_nonprimes := !c.draw_nonprimes } else c
  c

def zoomInInput : InputState := { w_pressed := true, s_pressed := false, f_released := false, d_released := false }

def zoomOutInput : InputState := { w_pressed := false, s_pressed := true, f_released := false, d_released := false }

def fullscreenInput : InputState := { w_pressed := false, s_pressed := false, f_released := true, d_released := false }

/-- A sequence of frames' inputs applied in order. -/
def applyInputs (inputs : List InputState) (c : Configs) : Configs :=
  inputs.foldl (fun c i => interactConfigs i c) c

/-! ## Projection and batch building (`PolarOxides::draw`) -/

structure Rectangle where
  x : ℕ
  y : ℕ
  width : ℕ
  height : ℕ
deriving DecidableEq

structure Sprite where
  source : Rectangle
  position : ℚ × ℚ
  scale : ℚ × ℚ
deriving DecidableEq

def BASE_PIXEL_RATE : ℚ := 10

/-- The pixel rate `BASE_PIXEL_RATE / 1.02_f32.powi(zoom_level)`. -/
def pixelRate (zoom_level : ℤ) : ℚ := BASE_PIXEL_RATE / (51/50 : ℚ) ^ zoom_level

/-- The filter closure in `draw`: `max_dim` is the larger of the two absolute
scaled coordinates, each first cast `as i32` (truncation), the max cast back
`as f32`. -/
def visibleParticle (pixel_rate frame_bound : ℚ) (draw_nonprime : Bool) (p : Particle) : Bool :=
  let max_dim : ℚ :=
    ((max (f32toI32 |p.position.1 * pixel_rate|) (f32toI32 |p.position.2 * pixel_rate|) : ℤ) : ℚ)
  decide (1 ≤ max_dim) && decide (max_dim / 2 ≤ frame_bound) && (p.is_prime || draw_nonprime)

/-- The map closure in `draw`: sprite with a 1×1 source rectangle selecting
the blue column for primes and the yellow column otherwise, position scaled
and centralized, scale `(2.0, 2.0)`. -/
def particleSprite (pixel_rate : ℚ) (centralize_vector : ℚ × ℚ) (p : Particle) : Sprite :=
  { source :=
      { x := if p.is_prime then PolarOxideColors.index_of PolarOxideColors.BLUE
             else PolarOxideColors.index_of PolarOxideColors.YELLOW
        y := 0
        width := 1
        height := 1 }
    position := (p.position.1 * pixel_rate + centralize_vector.1,
                 p.position.2 * pixel_rate + centralize_vector.2)
    scale := (2, 2) }

/-- The batch contents produced by the rebuild branch of `draw`:
filter by visibility, then map to sprites.  `frame_bound` is
`max(frame.width() as i32, frame.height() as i32) as f32`. -/
def rebuildBatch (particles : List Particle) (configs : Configs) (frame_w frame_h : ℚ) : List Sprite :=
  let x_origin := frame_w / 2
  let y_origin := frame_h / 2
  let pixel_rate := pixelRate configs.zoom_level
  let frame_bound : ℚ := ((max (f32toI32 frame_w) (f32toI32 frame_h) : ℤ) : ℚ)
  (particles.filter (visibleParticle pixel_rate frame_bound configs.draw_nonprimes)).map
    (particleSprite pixel_rate (x_origin, y_origin))

/-! ## Game state, load and the per-frame draw step -/

structure GameState where
  particles : List Particle
  batch : List Sprite
  configs : Configs
  prev_frame_configs : Configs
deriving DecidableEq

/-- The state built by `PolarOxides::load`: fresh empty batch, current zoom 0
with non-primes drawn, and a previous-frame snapshot at zoom −1. -/
def loadState (particles : List Particle) : GameState :=
  { particles := particles
    batch := []
    configs := { zoom_level := 0, draw_nonprimes := true }
    prev_frame_configs := { zoom_level := -1, draw_nonprimes := true } }

/-- Source `PolarOxides::draw` as a state transition: rebuild the batch only when the
configs changed since the previous frame, then snapshot the configs. -/
def drawStep (frame_w frame_h : ℚ) (s : GameState) : GameState :=
  if s.configs ≠ s.prev_frame_configs then
    { s with
      batch := rebuildBatch s.particles s.configs frame_w frame_h
      prev_frame_configs := s.configs }
  else
    { s with prev_frame_configs := s.configs }

/-! ## Spec-side definitions (for refinement comparisons only) -/

/-- The visibility predicate as the spec words it (§4.4): `max_dim` is the
real-valued `max(|scaled.x|, |scaled.y|)` with no integer truncation, and
`frame_bound = max(frame_width, frame_height)` untruncated. -/
def specVisibleParticle (pixel_rate frame_w frame_h : ℚ) (draw_nonprimes : Bool) (p : Particle) : Bool :=
  let max_dim : ℚ := max |p.position.1 * pixel_rate| |p.position.2 * pixel_rate|
  let frame_bound : ℚ := max frame_w frame_h
  decide (1 ≤ max_dim) && decide (max_dim / 2 ≤ frame_bound) && (p.is_prime || draw_nonprimes)

/-- The amended visibility predicate: like the spec's, but each absolute
scaled coordinate is truncated to an integer (`as i32`, saturating) before the
max, and the frame bound is the max of the truncated frame dimensions —
exactly the casts the source performs. -/
def amendedVisibleParticle (pixel_rate frame_w frame_h : ℚ) (draw_nonprimes : Bool) (p : Particle) : Bool :=
  let max_dim : ℚ :=
    ((max (f32toI32 |p.position.1 * pixel_rate|) (f32toI32 |p.position.2 * pixel_rate|) : ℤ) : ℚ)
  let frame_bound : ℚ := ((max (f32toI32 frame_w) (f32toI32 frame_h) : ℤ) : ℚ)
  decide (1 ≤ max_dim) && decide (max_dim / 2 ≤ frame_bound) && (p.is_prime || draw_nonprimes)

/-! # Helper lemmas -/

theorem trialDivisionPrime_iff (n : ℕ) : trialDivisionPrime n = true ↔ Nat.Prime n := by
  rw [Nat.prime_def_lt]
  simp only [trialDivisionPrime, Bool.and_eq_true, decide_eq_true_eq,
    List.all_eq_true, List.mem_range, Bool.or_eq_true]
  constructor
  · rintro ⟨h2, hall⟩
    refine ⟨h2, fun m hm hdvd => ?_⟩
    rcases Nat.lt_or_ge m 2 with hm2 | hm2
    · interval_cases m
      · exact absurd (Nat.eq_zero_of_zero_dvd hdvd) (by omega)
      · rfl
    · have := hall m hm
      rcases this with h | h
      · omega
      · exact absurd (Nat.dvd_iff_mod_eq_zero.mp hdvd) h
  · rintro ⟨h2, hmin⟩
    refine ⟨h2, fun d hd => ?_⟩
    by_cases hd2 : d < 2
    · exact Or.inl hd2
    · refine Or.inr fun hmod => ?_
      have hdvd : d ∣ n := Nat.dvd_iff_mod_eq_zero.mpr hmod
      have := hmin d hd hdvd
      omega

theorem smallestPrimeGE_spec (m : ℕ) :
    m ≤ smallestPrimeGE m ∧ Nat.Prime (smallestPrimeGE m) := by
  have hex : ∃ x, x ∈ List.range (2 * m + 3) ∧
      (decide (m ≤ x) && trialDivisionPrime x) = true := by
    rcases Nat.eq_zero_or_pos m with rfl | hm
    · exact ⟨2, by decide, by decide⟩
    · obtain ⟨p, hp, hlt, hle⟩ := Nat.exists_prime_lt_and_le_two_mul m (by omega)
      refine ⟨p, List.mem_range.mpr (by omega), ?_⟩
      simp [hlt.le, trialDivisionPrime_iff, hp]
  have hsome := List.find?_isSome.mpr hex
  unfold smallestPrimeGE
  cases hfind : (List.range (2 * m + 3)).find? (fun k => decide (m ≤ k) && trialDivisionPrime k) with
  | none => rw [hfind] at hsome; simp at hsome
  | some p =>
    have hpred := List.find?_some hfind
    simp only [Bool.and_eq_true, decide_eq_true_eq, trialDivisionPrime_iff] at hpred
    exact ⟨hpred.1, hpred.2⟩

theorem mem_primeSetAfterFind {m p : ℕ} :
    p ∈ primeSetAfterFind m ↔ Nat.Prime p ∧ p < max 3 (smallestPrimeGE m) + 1 := by
  simp only [primeSetAfterFind, List.mem_filter, List.mem_range, trialDivisionPrime_iff]
  exact and_comm

theorem primeSetAfterFind_sorted (m : ℕ) : (primeSetAfterFind m).Pairwise (· < ·) :=
  List.Pairwise.filter _ (List.sorted_lt_range _)

theorem smallestPrimeGE_mem (m : ℕ) : smallestPrimeGE m ∈ primeSetAfterFind m := by
  refine mem_primeSetAfterFind.mpr ⟨(smallestPrimeGE_spec m).2, ?_⟩
  have := le_max_right 3 (smallestPrimeGE m)
  omega

theorem find?_sorted_ge_self {l : List ℕ} {n : ℕ} (hs : l.Pairwise (· < ·)) (hn : n ∈ l) :
    l.find? (fun p => decide (n ≤ p)) = some n := by
  induction l with
  | nil => cases hn
  | cons a t ih =>
    rcases List.mem_cons.mp hn with rfl | hmem
    · exact List.find?_cons_of_pos _ (by simp)
    · have ha : a < n := (List.pairwise_cons.mp hs).1 n hmem
      rw [List.find?_cons_of_neg _ (by simp; omega)]
      exact ih (List.pairwise_cons.mp hs).2 hmem

theorem findVecAux_map_snd (n : ℕ) (ps : List ℕ) : ∀ (i : ℕ),
    (findVecAux n i ps).map Prod.snd = ps.find? (fun p => decide (n ≤ p)) := by
  induction ps with
  | nil => intro i; rfl
  | cons a t ih =>
    intro i
    by_cases h : n ≤ a
    · rw [findVecAux, if_pos h, List.find?_cons_of_pos _ (by simpa using h)]
      rfl
    · rw [findVecAux, if_neg h, List.find?_cons_of_neg _ (by simpa using h)]
      exact ih (i + 1)

theorem Particle_new_is_prime (x : ℚ) (c s : ℚ → ℚ) (ps : List ℕ) :
    (Particle.new x c s ps).is_prime =
      match ps.find? (fun p => decide (f32toU64 x ≤ p)) with
      | some p => p == f32toU64 x
      | none => false := by
  rw [← findVecAux_map_snd (f32toU64 x) ps 0]
  simp only [Particle.new, PrimeSet.find_vec]
  cases findVecAux (f32toU64 x) 0 ps with
  | none => rfl
  | some ip => cases ip; rfl

theorem ratTruncToward0_natCast (k : ℕ) : ratTruncToward0 (k : ℚ) = k := by
  rw [ratTruncToward0, if_pos (by positivity)]
  exact_mod_cast Int.floor_natCast k

theorem f32toU64_natCast (k : ℕ) (h : k < 2 ^ 64) : f32toU64 (k : ℚ) = k := by
  rw [f32toU64, ratTruncToward0_natCast]
  omega

/-- Core correctness of the primality flag for exactly representable inputs:
a particle built from the exact integer `k` with the prime set for a bound
above `k` is flagged prime iff `k` is prime. -/
theorem prime_flag_correct (m k : ℕ) (c s : ℚ → ℚ) (hkm : k < m) (hk64 : k < 2 ^ 64) :
    ((Particle.new ((k : ℕ) : ℚ) c s (primeSetAfterFind m)).is_prime = true ↔ Nat.Prime k) := by
  rw [Particle_new_is_prime, f32toU64_natCast k hk64]
  by_cases hp : Nat.Prime k
  · have hmem : k ∈ primeSetAfterFind m := by
      refine mem_primeSetAfterFind.mpr ⟨hp, ?_⟩
      have h1 := (smallestPrimeGE_spec m).1
      have h2 := le_max_right 3 (smallestPrimeGE m)
      omega
    rw [find?_sorted_ge_self (primeSetAfterFind_sorted m) hmem]
    simp [hp]
  · cases hfind : (primeSetAfterFind m).find? (fun p => decide (k ≤ p)) with
    | none => simp [hp]
    | some p =>
      have hpmem := List.mem_of_find?_eq_some hfind
      have hpp := (mem_primeSetAfterFind.mp hpmem).1
      have : p ≠ k := fun h => hp (h ▸ hpp)
      simp [this, hp]

theorem f32ulpExp_of_lt {n : ℕ} (h : n < 2 ^ 24) : f32ulpExp n = 0 := by
  have hr : List.range 41 = 0 :: List.map Nat.succ (List.range 40) := by decide
  have : (List.range 41).find? (fun e => decide (n / 2 ^ e < 2 ^ 24)) = some 0 := by
    rw [hr]
    exact List.find?_cons_of_pos _ (by simpa using h)
  unfold f32ulpExp
  rw [this]

theorem f32ofNat_of_le {n : ℕ} (h : n ≤ 2 ^ 24) : f32ofNat n = n := by
  rcases Nat.lt_or_ge n (2 ^ 24) with hlt | hge
  · simp [f32ofNat, f32ulpExp_of_lt hlt, Nat.mod_one, Nat.div_one]
  · have hn : n = 2 ^ 24 := by omega
    subst hn
    decide

theorem generate_particles_length (m : ℕ) (c s : ℚ → ℚ) :
    (generate_particles m c s).length = m - 1 := by
  simp [generate_particles]

theorem generate_particles_get (m : ℕ) (c s : ℚ → ℚ) (i : ℕ)
    (h : i < (generate_particles m c s).length) :
    (generate_particles m c s).get ⟨i, h⟩ =
      Particle.new ((f32ofNat (1 + i) : ℕ) : ℚ) c s (primeSetAfterFind m) := by
  simp [generate_particles, List.get_eq_getElem, List.getElem_map, List.getElem_range']

/-! # Claims -/

/-- C10: for a generation bound of 0 or 1, the source range `1..max_number` is
empty, so generation totals (no underflow) and produces no particles. -/
theorem C10_small_bound_generates_nothing :
    ∀ (cosF sinF : ℚ → ℚ),
      generate_particles 0 cosF sinF = [] ∧ generate_particles 1 cosF sinF = [] := by
  intro c s
  exact ⟨rfl, rfl⟩

/-- C4: generation produces exactly `max_number - 1` particles, one per source
integer `n = 1 + i` in `1..max_number` (exclusive upper bound); the particle at
index `i` has position `(n·cos n, n·sin n)` evaluated at the `f32` value of
`n`. -/
theorem C4_generation_count_and_positions :
    ∀ (m : ℕ) (cosF sinF : ℚ → ℚ),
      (generate_particles m cosF sinF).length = m - 1 ∧
      ∀ (i : ℕ) (h : i < (generate_particles m cosF sinF).length),
        ((generate_particles m cosF sinF).get ⟨i, h⟩).position =
          (((f32ofNat (1 + i) : ℕ) : ℚ) * cosF ((f32ofNat (1 + i) : ℕ) : ℚ),
           ((f32ofNat (1 + i) : ℕ) : ℚ) * sinF ((f32ofNat (1 + i) : ℕ) : ℚ)) := by
  intro m c s
  refine ⟨generate_particles_length m c s, fun i h => ?_⟩
  rw [generate_particles_get m c s i h]
  rfl

/-- Witness for C4 at `max_number = 3`, index 0 (source integer 1). -/
theorem C4_witness :
    ((generate_particles 3 (fun _ => 5) (fun _ => 7)).get
        ⟨0, by simp [generate_particles_length]⟩).position = ((5 : ℚ), (7 : ℚ)) := by
  have h := (C4_generation_count_and_positions 3 (fun _ => 5) (fun _ => 7)).2 0
    (by simp [generate_particles_length])
  have h1 : f32ofNat (1 + 0) = 1 := by decide
  rw [h1] at h
  simpa using h

/-- C2 as stated is false: for the prime source integer n = 16777259 (just
above 2^24) and bound 16777260, the generated particle is flagged non-prime,
because `n as f32` rounds to the composite 16777260 before the oracle query. -/
theorem C2_counterexample :
    Nat.Prime 16777259 ∧
    ((generate_particles 16777260 (fun _ => 0) (fun _ => 0)).get
        ⟨16777258, by simp [generate_particles_length]⟩).is_prime = false := by
  refine ⟨by norm_num, ?_⟩
  rw [generate_particles_get]
  have hround : f32ofNat (1 + 16777258) = 16777260 := by decide
  rw [hround, Particle_new_is_prime, f32toU64_natCast 16777260 (by norm_num)]
  cases hfind : (primeSetAfterFind 16777260).find? (fun p => decide (16777260 ≤ p)) with
  | none => rfl
  | some p =>
    have hpp := (mem_primeSetAfterFind.mp (List.mem_of_find?_eq_some hfind)).1
    have hnp : ¬ Nat.Prime 16777260 := by norm_num
    have hne : p ≠ 16777260 := fun h => hnp (h ▸ hpp)
    simp [hne]

/-- C2 amended: for every bound `max_number` and source integer `n` in
`[1, max_number)` with `n ≤ 2^24` (so the `u64 → f32 → u64` roundtrip is
exact), the generated particle's prime flag agrees with an independent
trial-division primality check; in particular it is the truth value of
`Nat.Prime n`.  (Above `2^24` the flag reflects the `f32`-rounded value of
`n`, as the counterexample shows.) -/
theorem C2_amended_prime_flag :
    ∀ (m n : ℕ) (cosF sinF : ℚ → ℚ), 1 ≤ n → n < m → n ≤ 2 ^ 24 →
      ∀ (h : n - 1 < (generate_particles m cosF sinF).length),
        ((generate_particles m cosF sinF).get ⟨n - 1, h⟩).is_prime = trialDivisionPrime n ∧
        (((generate_particles m cosF sinF).get ⟨n - 1, h⟩).is_prime = true ↔ Nat.Prime n) := by
  intro m n c s h1 h2 h3 h
  rw [generate_particles_get]
  have hn : 1 + (n - 1) = n := by omega
  rw [hn, f32ofNat_of_le h3]
  have hiff := prime_flag_correct m n c s h2 (by omega)
  refine ⟨?_, hiff⟩
  rw [← trialDivisionPrime_iff] at hiff
  cases hb : (Particle.new ((n : ℕ) : ℚ) c s (primeSetAfterFind m)).is_prime <;>
    cases ht : trialDivisionPrime n <;> simp_all

/-- Witness for the amended C2 at bound 10, source integer 7 (prime) —
and the edge cases n = 1 (flagged not prime) and n = 2 (flagged prime). -/
theorem C2_amended_witness :
    ((generate_particles 10 (fun _ => 0) (fun _ => 0)).get
        ⟨6, by simp [generate_particles_length]⟩).is_prime = trialDivisionPrime 7 ∧
    ((generate_particles 10 (fun _ => 0) (fun _ => 0)).get
        ⟨0, by simp [generate_particles_length]⟩).is_prime = trialDivisionPrime 1 ∧
    ((generate_particles 10 (fun _ => 0) (fun _ => 0)).get
        ⟨1, by simp [generate_particles_length]⟩).is_prime = trialDivisionPrime 2 := by
  refine ⟨?_, ?_, ?_⟩
  · exact (C2_amended_prime_flag 10 7 (fun _ => 0) (fun _ => 0) (by norm_num) (by norm_num)
      (by norm_num) (by simp [generate_particles_length])).1
  · exact (C2_amended_prime_flag 10 1 (fun _ => 0) (fun _ => 0) (by norm_num) (by norm_num)
      (by norm_num) (by simp [generate_particles_length])).1
  · exact (C2_amended_prime_flag 10 2 (fun _ => 0) (fun _ => 0) (by norm_num) (by norm_num)
      (by norm_num) (by simp [generate_particles_length])).1



theorem interact_zoomIn (c : Configs) :
    interactConfigs zoomInInput c =
      { c with zoom_level := if 0 < c.zoom_level then c.zoom_level - 1 else c.zoom_level } := by
  by_cases h0 : 0 < c.zoom_level <;> simp [interactConfigs, zoomInInput, h0]

theorem interact_zoomOut (c : Configs) :
    interactConfigs zoomOutInput c =
      { c with zoom_level := if c.zoom_level ≤ MAX_ZOOM_LEVEL then c.zoom_level + 1 else c.zoom_level } := by
  by_cases h0 : c.zoom_level ≤ MAX_ZOOM_LEVEL <;> simp [interactConfigs, zoomOutInput, h0]

theorem interact_fullscreen (c : Configs) :
    interactConfigs fullscreenInput c = { c with zoom_level := c.zoom_level + 1 } := by
  simp [interactConfigs, fullscreenInput]

theorem applyInputs_cons (i : InputState) (l : List InputState) (c : Configs) :
    applyInputs (i :: l) c = applyInputs l (interactConfigs i c) := by
  simp [applyInputs]

theorem zoom_invariant_step (c : Configs) (i : InputState)
    (hi : i = zoomInInput ∨ i = zoomOutInput)
    (h : 0 ≤ c.zoom_level ∧ c.zoom_level ≤ MAX_ZOOM_LEVEL + 1) :
    0 ≤ (interactConfigs i c).zoom_level ∧
      (interactConfigs i c).zoom_level ≤ MAX_ZOOM_LEVEL + 1 := by
  rcases hi with rfl | rfl
  · rw [interact_zoomIn]
    dsimp only
    split <;> omega
  · rw [interact_zoomOut]
    dsimp only
    split <;> omega

theorem zoom_seq_invariant (l : List InputState) (c : Configs)
    (hl : ∀ i ∈ l, i = zoomInInput ∨ i = zoomOutInput)
    (h : 0 ≤ c.zoom_level ∧ c.zoom_level ≤ MAX_ZOOM_LEVEL + 1) :
    0 ≤ (applyInputs l c).zoom_level ∧
      (applyInputs l c).zoom_level ≤ MAX_ZOOM_LEVEL + 1 := by
  induction l generalizing c with
  | nil => exact h
  | cons a t ih =>
    rw [applyInputs_cons]
    exact ih _ (fun i hi => hl i (List.mem_cons_of_mem _ hi))
      (zoom_invariant_step c a (hl a (List.mem_cons_self a t)) h)

theorem zoomOut_replicate (k : ℕ) : ∀ (c : Configs),
    c.zoom_level + k ≤ MAX_ZOOM_LEVEL + 1 →
    applyInputs (List.replicate k zoomOutInput) c =
      { c with zoom_level := c.zoom_level + k } := by
  induction k with
  | zero => intro c _; simp [applyInputs]
  | succ n ih =>
    intro c h
    rw [List.replicate_succ, applyInputs_cons, interact_zoomOut,
      if_pos (by push_cast at h ⊢; omega)]
    rw [ih _ (by push_cast at h ⊢; omega)]
    dsimp only
    congr 1
    push_cast
    omega

/-- C3 as stated is false: 1001 consecutive zoom-out presses from the initial
state push zoom_level to MAX_ZOOM_LEVEL + 1 = 1001 with no fullscreen toggle
involved. -/
theorem C3_counterexample :
    (applyInputs (List.replicate 1001 zoomOutInput)
        { zoom_level := 0, draw_nonprimes := true }).zoom_level = 1001 ∧
    ¬ ((applyInputs (List.replicate 1001 zoomOutInput)
        { zoom_level := 0, draw_nonprimes := true }).zoom_level ≤ MAX_ZOOM_LEVEL) := by
  have h := zoomOut_replicate 1001 { zoom_level := 0, draw_nonprimes := true }
    (by norm_num [MAX_ZOOM_LEVEL])
  rw [h]
  norm_num [MAX_ZOOM_LEVEL]

/-- C3 amended: starting from zoom_level = 0, any sequence of the normal
zoom-in and zoom-out transitions keeps zoom_level within
[0, MAX_ZOOM_LEVEL + 1] (the increment is guarded by `≤ MAX_ZOOM_LEVEL`, so
MAX_ZOOM_LEVEL + 1 is reachable by zoom-out alone); zoom-in at zoom_level = 0
is a no-op; the fullscreen toggle increments zoom_level unconditionally (and
can therefore push it beyond MAX_ZOOM_LEVEL + 1 when repeated). -/
theorem C3_amended_zoom_invariant :
    (∀ (l : List InputState), (∀ i ∈ l, i = zoomInInput ∨ i = zoomOutInput) →
      0 ≤ (applyInputs l { zoom_level := 0, draw_nonprimes := true }).zoom_level ∧
      (applyInputs l { zoom_level := 0, draw_nonprimes := true }).zoom_level ≤ MAX_ZOOM_LEVEL + 1) ∧
    (∀ c : Configs, c.zoom_level = 0 → interactConfigs zoomInInput c = c) ∧
    (∀ c : Configs, (interactConfigs fullscreenInput c).zoom_level = c.zoom_level + 1) := by
  refine ⟨fun l hl => zoom_seq_invariant l _ hl (by norm_num [MAX_ZOOM_LEVEL]), ?_, ?_⟩
  · intro c h0
    rw [interact_zoomIn, if_neg (by omega)]
  · intro c
    rw [interact_fullscreen]

/-- Witness for the amended C3: a single zoom-out stays in range, zoom-in at
the initial state is a no-op, and a fullscreen toggle increments. -/
theorem C3_amended_witness :
    (0 ≤ (applyInputs [zoomOutInput] { zoom_level := 0, draw_nonprimes := true }).zoom_level ∧
      (applyInputs [zoomOutInput] { zoom_level := 0, draw_nonprimes := true }).zoom_level ≤ MAX_ZOOM_LEVEL + 1) ∧
    interactConfigs zoomInInput { zoom_level := 0, draw_nonprimes := true } =
      { zoom_level := 0, draw_nonprimes := true } ∧
    (interactConfigs fullscreenInput { zoom_level := 0, draw_nonprimes := true }).zoom_level = 0 + 1 := by
  refine ⟨C3_amended_zoom_invariant.1 [zoomOutInput] ?_, C3_amended_zoom_invariant.2.1 _ rfl,
    C3_amended_zoom_invariant.2.2 _⟩
  intro i hi
  simp at hi
  exact Or.inr hi

theorem drawStep_configs (fw fh : ℚ) (s : GameState) : (drawStep fw fh s).configs = s.configs := by
  by_cases hc : s.configs ≠ s.prev_frame_configs <;> simp [drawStep, hc]

theorem drawStep_prev (fw fh : ℚ) (s : GameState) :
    (drawStep fw fh s).prev_frame_configs = s.configs := by
  by_cases hc : s.configs ≠ s.prev_frame_configs <;> simp [drawStep, hc]

theorem drawStep_batch_of_unchanged (fw fh : ℚ) (s : GameState)
    (heq : s.configs = s.prev_frame_configs) : (drawStep fw fh s).batch = s.batch := by
  simp [drawStep, heq]

/-- C5: when the current configs equal the previous frame's snapshot, the draw
step leaves the batch untouched; hence drawing a second time with an unchanged
view state and frame reuses the first draw's batch identically. -/
theorem C5_unchanged_view_reuses_batch :
    ∀ (s : GameState) (fw fh : ℚ),
      (s.configs = s.prev_frame_configs → (drawStep fw fh s).batch = s.batch) ∧
      (drawStep fw fh (drawStep fw fh s)).batch = (drawStep fw fh s).batch := by
  intro s fw fh
  refine ⟨drawStep_batch_of_unchanged fw fh s, ?_⟩
  exact drawStep_batch_of_unchanged fw fh _ ((drawStep_configs fw fh s).trans (drawStep_prev fw fh s).symm)

/-- Witness for C5: a state whose configs match the snapshot keeps its batch. -/
theorem C5_witness :
    (drawStep 100 100
        { particles := []
          batch := []
          configs := { zoom_level := 0, draw_nonprimes := true }
          prev_frame_configs := { zoom_level := 0, draw_nonprimes := true } }).batch = [] := by
  exact (C5_unchanged_view_reuses_batch
    { particles := []
      batch := []
      configs := { zoom_level := 0, draw_nonprimes := true }
      prev_frame_configs := { zoom_level := 0, draw_nonprimes := true } } 100 100).1 rfl

/-- C9: after load the previous-frame snapshot (zoom −1) differs from the
current configs (zoom 0), so the first draw call takes the rebuild branch and
fills the batch with the rebuilt sprites. -/
theorem C9_first_draw_rebuilds :
    ∀ (particles : List Particle) (fw fh : ℚ),
      (loadState particles).configs ≠ (loadState particles).prev_frame_configs ∧
      (drawStep fw fh (loadState particles)).batch =
        rebuildBatch particles (loadState particles).configs fw fh := by
  intro ps fw fh
  have hne : (loadState ps).configs ≠ (loadState ps).prev_frame_configs := by
    simp [loadState]
  exact ⟨hne, by simp [drawStep, hne, loadState]⟩

/-- C7: the generation bound is the parsed base-10 unsigned value of the
single positional argument when it parses, and the default 50,000 when the
argument is missing or fails to parse; the failure is swallowed silently (the
bound function is total and never signals an error). -/
theorem C7_argument_fallback :
    ∀ (args : List String),
      (∀ (prog a : String) (rest : List String), args = prog :: a :: rest →
        (∀ v, rustParseU64 (rustTrim a) = some v → maxNumberFromArgs args = v) ∧
        (rustParseU64 (rustTrim a) = none → maxNumberFromArgs args = DEFAULT_MAX_NUMBER)) ∧
      (args.length ≤ 1 → maxNumberFromArgs args = DEFAULT_MAX_NUMBER) := by
  intro args
  constructor
  · rintro prog a rest rfl
    constructor
    · intro v hv
      simp [maxNumberFromArgs, hv]
    · intro hv
      simp [maxNumberFromArgs, hv]
  · intro hlen
    match args with
    | [] => rfl
    | [x] => rfl
    | x :: y :: t => simp at hlen

/-- Witness for C7: a numeric argument is used (also with surrounding
whitespace), a non-numeric one and a missing one fall back to 50,000. -/
theorem C7_witness :
    maxNumberFromArgs ["polar-oxides", " 123 "] = 123 ∧
    maxNumberFromArgs ["polar-oxides", "abc"] = DEFAULT_MAX_NUMBER ∧
    maxNumberFromArgs ["polar-oxides"] = DEFAULT_MAX_NUMBER := by
  refine ⟨?_, ?_, ?_⟩
  · exact ((C7_argument_fallback _).1 _ _ _ rfl).1 123 (by decide)
  · exact ((C7_argument_fallback _).1 _ _ _ rfl).2 (by decide)
  · exact (C7_argument_fallback _).2 (by decide)

/-- C8: `index_of` returns the index of a color present in the 3-entry table
and 0 for an absent color; it is a total function, so it never fails. -/
theorem C8_color_lookup_fallback :
    (∀ (i : ℕ) (h : i < COLORS.length), PolarOxideColors.index_of (COLORS.get ⟨i, h⟩) = i) ∧
    (∀ c : Color, c ∉ COLORS → PolarOxideColors.index_of c = 0) := by
  constructor
  · intro i h
    have h3 : i < 3 := by simpa [COLORS] using h
    interval_cases i <;>
      · simp only [PolarOxideColors.index_of, COLORS, List.get, List.findIdx?_cons]
        norm_num [PolarOxideColors.BLACK, PolarOxideColors.YELLOW, PolarOxideColors.BLUE,
          Color.mk.injEq]
  · intro c hc
    have hnone : COLORS.findIdx? (fun color => decide (color = c)) = none := by
      rw [List.findIdx?_eq_none_iff]
      intro x hx
      simp only [decide_eq_false_iff_not]
      exact fun h => hc (h ▸ hx)
    simp [PolarOxideColors.index_of, hnone]

/-- Witness for C8: the blue entry maps to index 2, and pure red (absent from
the table) falls back to index 0. -/
theorem C8_witness :
    PolarOxideColors.index_of (COLORS.get ⟨2, by simp [COLORS]⟩) = 2 ∧
    PolarOxideColors.index_of { r := 1, g := 0, b := 0, a := 1 } = 0 := by
  constructor
  · exact C8_color_lookup_fallback.1 2 (by simp [COLORS])
  · refine C8_color_lookup_fallback.2 _ ?_
    simp only [COLORS, List.mem_cons, List.not_mem_nil, or_false,
      PolarOxideColors.BLACK, PolarOxideColors.YELLOW, PolarOxideColors.BLUE, Color.mk.injEq]
    norm_num

theorem pixelRate_zero : pixelRate 0 = 10 := by
  norm_num [pixelRate, BASE_PIXEL_RATE]

theorem f32toI32_hundred : f32toI32 (100 : ℚ) = 100 := by
  norm_num [f32toI32, ratTruncToward0]

theorem visibleParticle_eval (pr fb : ℚ) (dnp : Bool) (x y : ℚ) (b : Bool) :
    visibleParticle pr fb dnp { position := (x, y), is_prime := b } =
      (decide (1 ≤ ((max (f32toI32 |x * pr|) (f32toI32 |y * pr|) : ℤ) : ℚ)) &&
       decide (((max (f32toI32 |x * pr|) (f32toI32 |y * pr|) : ℤ) : ℚ) / 2 ≤ fb) &&
       (b || dnp)) := rfl

theorem specVisibleParticle_eval (pr fw fh : ℚ) (dnp : Bool) (x y : ℚ) (b : Bool) :
    specVisibleParticle pr fw fh dnp { position := (x, y), is_prime := b } =
      (decide (1 ≤ max |x * pr| |y * pr|) &&
       decide (max |x * pr| |y * pr| / 2 ≤ max fw fh) && (b || dnp)) := rfl

theorem f32toI32_scaled_counterexample : f32toI32 |(401/20 : ℚ) * 10| = 200 := by
  rw [show |(401/20 : ℚ) * 10| = 401/2 by norm_num]
  norm_num [f32toI32, ratTruncToward0]

/-- C1 as stated is false: with zoom 0 (pixel_rate 10) and a 100×100 frame, a
particle at position (20.05, 20.05) has scaled coordinates (200.5, 200.5), so
the spec's real-valued max_dim is 200.5 and max_dim/2 = 100.25 > 100 demands
exclusion — but the code truncates 200.5 to 200 (`as i32`) before the test,
gets 200/2 ≤ 100, and keeps the particle in the batch. -/
theorem C1_counterexample :
    (rebuildBatch [{ position := (401/20, 401/20), is_prime := true }]
        { zoom_level := 0, draw_nonprimes := true } 100 100).length = 1 ∧
    specVisibleParticle (pixelRate 0) 100 100 true
        { position := (401/20, 401/20), is_prime := true } = false := by
  constructor
  · simp only [rebuildBatch, pixelRate_zero, f32toI32_hundred, max_self]
    rw [List.filter_cons, visibleParticle_eval, f32toI32_scaled_counterexample]
    simp only [max_self, Bool.or_true, Bool.and_true]
    rw [show (decide ((1:ℚ) ≤ ((200 : ℤ) : ℚ))) = true by norm_num,
      show (decide (((200 : ℤ) : ℚ) / 2 ≤ ((100 : ℤ) : ℚ))) = true by norm_num]
    rfl
  · rw [pixelRate_zero, specVisibleParticle_eval,
      show |(401/20 : ℚ) * 10| = 401/2 by norm_num]
    simp only [max_self, Bool.or_true, Bool.and_true]
    rw [show (decide ((401:ℚ)/2 / 2 ≤ (100:ℚ))) = false by norm_num [decide_eq_false_iff_not],
      Bool.and_false]

theorem amendedVisibleParticle_eval (pr fw fh : ℚ) (dnp : Bool) (x y : ℚ) (b : Bool) :
    amendedVisibleParticle pr fw fh dnp { position := (x, y), is_prime := b } =
      (decide (1 ≤ ((max (f32toI32 |x * pr|) (f32toI32 |y * pr|) : ℤ) : ℚ)) &&
       decide (((max (f32toI32 |x * pr|) (f32toI32 |y * pr|) : ℤ) : ℚ) / 2 ≤
         ((max (f32toI32 fw) (f32toI32 fh) : ℤ) : ℚ)) && (b || dnp)) := rfl

/-- C1 amended: the rebuilt batch keeps exactly the particles passing the
source's visibility test, which differs from the claim in that each absolute
scaled coordinate is truncated to an integer (`as i32`) before the max, and
the frame bound is the max of the i32-truncated frame dimensions.  The
claim's threshold examples still hold: a scaled max_dim of exactly 1.0 is
kept, 0.999 is dropped (truncates to 0), and a truncated max_dim with
max_dim/2 exceeding the frame bound is dropped. -/
theorem C1_amended_visibility :
    (∀ (particles : List Particle) (configs : Configs) (fw fh : ℚ),
      rebuildBatch particles configs fw fh =
        (particles.filter
          (amendedVisibleParticle (pixelRate configs.zoom_level) fw fh configs.draw_nonprimes)).map
          (particleSprite (pixelRate configs.zoom_level) (fw / 2, fh / 2))) ∧
    amendedVisibleParticle 10 100 100 true
      { position := (1/10, 1/10), is_prime := true } = true ∧
    amendedVisibleParticle 10 100 100 true
      { position := (999/10000, 999/10000), is_prime := true } = false ∧
    amendedVisibleParticle 10 100 100 true
      { position := (201/10, 201/10), is_prime := true } = false := by
  refine ⟨fun particles configs fw fh => rfl, ?_, ?_, ?_⟩
  · rw [amendedVisibleParticle_eval, show |(1/10 : ℚ) * 10| = 1 by norm_num,
      show f32toI32 (1 : ℚ) = 1 by norm_num [f32toI32, ratTruncToward0], f32toI32_hundred]
    simp only [max_self, Bool.or_true, Bool.and_true]
    rw [show (decide ((1:ℚ) ≤ ((1 : ℤ) : ℚ))) = true by norm_num,
      show (decide (((1 : ℤ) : ℚ) / 2 ≤ ((100 : ℤ) : ℚ))) = true by norm_num]
    rfl
  · rw [amendedVisibleParticle_eval, show |(999/10000 : ℚ) * 10| = 999/1000 by norm_num,
      show f32toI32 (999/1000 : ℚ) = 0 by norm_num [f32toI32, ratTruncToward0], f32toI32_hundred]
    simp only [max_self]
    rw [show (decide ((1:ℚ) ≤ ((0 : ℤ) : ℚ))) = false by norm_num [decide_eq_false_iff_not]]
    rfl
  · rw [amendedVisibleParticle_eval, show |(201/10 : ℚ) * 10| = 201 by norm_num,
      show f32toI32 (201 : ℚ) = 201 by norm_num [f32toI32, ratTruncToward0], f32toI32_hundred]
    simp only [max_self, Bool.or_true, Bool.and_true]
    rw [show (decide (((201 : ℤ) : ℚ) / 2 ≤ ((100 : ℤ) : ℚ))) = false by
        norm_num [decide_eq_false_iff_not],
      Bool.and_false]

theorem index_of_BLUE : PolarOxideColors.index_of PolarOxideColors.BLUE = 2 := by
  simp only [PolarOxideColors.index_of, COLORS, List.findIdx?_cons]
  norm_num [PolarOxideColors.BLACK, PolarOxideColors.YELLOW, PolarOxideColors.BLUE, Color.mk.injEq]

/-- C6: every sprite in a rebuilt batch carries scale (2.0, 2.0) and the
screen position of some source particle: position * pixel_rate + (fw/2, fh/2)
with pixel_rate = BASE_PIXEL_RATE / 1.02^zoom_level. -/
theorem C6_screen_mapping :
    ∀ (particles : List Particle) (configs : Configs) (fw fh : ℚ) (spr : Sprite),
      spr ∈ rebuildBatch particles configs fw fh →
      spr.scale = (2, 2) ∧
      ∃ p ∈ particles,
        spr.position =
          (p.position.1 * (BASE_PIXEL_RATE / (51/50 : ℚ) ^ configs.zoom_level) + fw / 2,
           p.position.2 * (BASE_PIXEL_RATE / (51/50 : ℚ) ^ configs.zoom_level) + fh / 2) := by
  intro particles configs fw fh spr hmem
  simp only [rebuildBatch, List.mem_map, List.mem_filter] at hmem
  obtain ⟨p, ⟨hp, _⟩, rfl⟩ := hmem
  exact ⟨rfl, p, hp, rfl⟩

/-- Witness for C6: the single visible particle at (1, 1), zoom 0, frame
100×100 produces a sprite at (1·10 + 50, 1·10 + 50) with scale (2, 2). -/
theorem C6_witness :
    (particleSprite (pixelRate 0) ((100 : ℚ) / 2, (100 : ℚ) / 2)
        { position := (1, 1), is_prime := true }).scale = (2, 2) ∧
    (particleSprite (pixelRate 0) ((100 : ℚ) / 2, (100 : ℚ) / 2)
        { position := (1, 1), is_prime := true }).position =
      ((1 : ℚ) * (BASE_PIXEL_RATE / (51/50 : ℚ) ^ (0 : ℤ)) + 100 / 2,
       (1 : ℚ) * (BASE_PIXEL_RATE / (51/50 : ℚ) ^ (0 : ℤ)) + 100 / 2) := by
  have hmem : particleSprite (pixelRate 0) ((100 : ℚ) / 2, (100 : ℚ) / 2)
      { position := (1, 1), is_prime := true } ∈
        rebuildBatch [{ position := (1, 1), is_prime := true }]
          { zoom_level := 0, draw_nonprimes := true } 100 100 := by
    have hvis : visibleParticle (pixelRate 0)
        ((max (f32toI32 (100 : ℚ)) (f32toI32 (100 : ℚ)) : ℤ) : ℚ) true
        { position := ((1 : ℚ), (1 : ℚ)), is_prime := true } = true := by
      rw [pixelRate_zero, visibleParticle_eval,
        show |(1 : ℚ) * 10| = 10 by norm_num,
        show f32toI32 (10 : ℚ) = 10 by norm_num [f32toI32, ratTruncToward0],
        f32toI32_hundred]
      simp only [max_self, Bool.or_true, Bool.and_true]
      rw [show (decide ((1:ℚ) ≤ ((10 : ℤ) : ℚ))) = true by norm_num,
        show (decide (((10 : ℤ) : ℚ) / 2 ≤ ((100 : ℤ) : ℚ))) = true by norm_num]
      rfl
    simp only [rebuildBatch, List.mem_map, List.mem_filter]
    exact ⟨{ position := (1, 1), is_prime := true }, ⟨List.mem_singleton.mpr rfl, hvis⟩, rfl⟩
  have h := C6_screen_mapping [{ position := (1, 1), is_prime := true }]
    { zoom_level := 0, draw_nonprimes := true } 100 100 _ hmem
  obtain ⟨hscale, p, hp, hpos⟩ := h
  have hp1 : p = { position := (1, 1), is_prime := true } := List.mem_singleton.mp hp
  subst hp1
  exact ⟨hscale, hpos⟩
